import Mathlib

/-!
Verification of the training/evaluation orchestration in `train.py` of
HighlightSoccerNet.

The script is glue code over a deep-learning framework: it iterates epochs,
iterates batches, moves tensors to the device, calls forward/backward/step,
accumulates and averages scalar statistics, periodically checkpoints, and
logs scalars.  We embed it shallowly:

* Scalar tensor values are rationals (`Rat`); a batch of the audio loader is
  the triple `(volumes, labels, lengths)` returned by the loader, each tensor
  abstracted to one scalar value.
* The network, the loss criteria and the optimizer-step effect are abstract
  functions collected in an `Ops` record; the mutable state they act on
  (network parameters, train/eval mode, optimizer internals) is threaded
  explicitly through a `State` record.
* Every framework call the script makes is recorded as an event (`Ev`), so
  the functions of `train.py` return, besides their value and the updated
  state, the trace of calls they perform, in order.  Claims about ordering,
  periodicity and device movement are stated over these traces.
* Python dicts (`avg_stats` and the per-batch loss dicts) are association
  lists `List (String × Rat)` in insertion order, matching Python 3.7+ dict
  iteration order.
-/

namespace HighlightSoccerNet

/-- One batch yielded by the audio data loader: the tuple
`volumes, labels, lengths = data` of `train_audio`/`test_audio`, each tensor
abstracted to a single scalar (`lengths` stays a natural number). -/
structure Batch where
  volumes : Rat
  labels : Rat
  lengths : Nat
  deriving Repr, DecidableEq

/-- One batch of the audio+video loader after `to_variables`: the tuple
`frames, volumes, labels = data` of `train`/`test`/`benchmark`.  `frame0`
stands for `frames[0]`, `audio0` for `volumes[0]`, `labels` for the label
tensor (also read as `labels[0]` in `benchmark`, where it is a scalar). -/
structure BatchAV where
  frame0 : Rat
  audio0 : Rat
  labels : Rat
  deriving Repr, DecidableEq

/-- The mutable network object: abstract parameter contents plus the
train/eval mode flag toggled by `net.train()` / `net.eval()`. -/
structure NetState where
  params : Nat
  trainMode : Bool
  deriving Repr, DecidableEq

/-- The mutable optimizer object (Adam internals), abstracted to a version
counter advanced by `optimizer.step()`. -/
structure OptimState where
  version : Nat
  deriving Repr, DecidableEq

/-- The state the script mutates: the network and the optimizer. -/
structure State where
  net : NetState
  optim : OptimState
  deriving Repr, DecidableEq

/-- The external operations of the framework, abstracted: the forward passes
of `crNN_audio` and `crNN`, the `BCELoss` / `CrossEntropyLoss` criteria, the
accuracy expression of `train_audio`/`test_audio`, and the effect of
`optimizer.step()` on parameters and optimizer internals. -/
structure Ops where
  forward : Nat → Rat → Nat → Rat
  forwardAV : Nat → Rat → Rat → Rat
  bce : Rat → Rat → Rat
  ce : Rat → Rat → Rat
  acc : Rat → Rat → Rat
  stepNet : Nat → Rat → Nat
  stepOpt : Nat → Nat

/-- The command-line options of `setup_main` that the embedded logic reads.
Other options (learning rate, betas, paths, names) only parametrize the
external framework objects and are irrelevant to the claims. -/
structure Opt where
  epoch : Nat
  n_epochs : Nat
  checkpoint_interval : Nat
  cuda : Bool
  benchmark : Bool
  deriving Repr, DecidableEq

/-- One framework call performed by `train.py`, recorded in program order. -/
inductive Ev where
  | netTrainEv : Ev
  | netEvalEv : Ev
  | zeroGradEv : Ev
  | cudaMoveEv (tensor : String) : Ev
  | trainBatchEv (b : Batch) : Ev
  | testBatchEv (b : Batch) : Ev
  | trainBatchAVEv (b : BatchAV) : Ev
  | testBatchAVEv (b : BatchAV) : Ev
  | forwardEv (input : Rat) (lengths : Nat) : Ev
  | forwardAVEv (frame : Rat) (audio : Rat) : Ev
  | lossEv : Ev
  | backwardEv : Ev
  | stepEv : Ev
  | epochStartEv (epoch : Nat) : Ev
  | addScalarEv (writer : String) (key : String) (value : Rat) (epoch : Nat) : Ev
  | printEv : Ev
  | saveIfBestEv (score : Rat) (epoch : Nat) : Ev
  deriving Repr, DecidableEq

/-- A stats dictionary (`avg_stats`, or a per-batch loss dict), as an
association list in insertion order. -/
abbrev Stats := List (String × Rat)

/-- Modelled from the spec: `update_stats` lives in the repository's `main`
module, which is not under `src/`; per the spec it accumulates scalar
statistics: for each key of the per-batch `loss` dict, in iteration order,
it adds the value into `stats` (`stats[k] += v` on a `defaultdict(float)`,
so an absent key starts from `0.0` and is appended in insertion order). -/
def update_stats (stats : Stats) (loss : Stats) : Stats :=
  loss.foldl
    (fun acc kv =>
      if acc.any (fun p => p.1 == kv.1) then
        acc.map (fun p => if p.1 == kv.1 then (p.1, p.2 + kv.2) else p)
      else acc ++ [kv])
    stats

/-- `train_audio(net, criterion, optimizer, data, opt)` (train.py lines
65-79): sets train mode, zeroes gradients, moves `volumes` and `labels` to
CUDA when `opt.cuda`, runs the forward pass on `volumes*100`, computes the
loss, backpropagates and takes one optimizer step; returns the per-batch
stats dict `{train loss, accuracy}`.  The returned trace records the calls
in program order. -/
def train_audio (ops : Ops) (cuda : Bool) (st : State) (b : Batch) :
    State × Stats × List Ev :=
  let net1 : NetState := { st.net with trainMode := true }
  let output := ops.forward net1.params (b.volumes * 100) b.lengths
  let losses := ops.bce output b.labels
  let net2 : NetState := { net1 with params := ops.stepNet net1.params losses }
  let opt2 : OptimState := { version := ops.stepOpt st.optim.version }
  (⟨net2, opt2⟩,
   [("train loss", losses), ("accuracy", ops.acc b.labels output)],
   [Ev.netTrainEv, Ev.zeroGradEv]
     ++ (if cuda then [Ev.cudaMoveEv "volumes", Ev.cudaMoveEv "labels"] else [])
     ++ [Ev.forwardEv (b.volumes * 100) b.lengths, Ev.lossEv, Ev.backwardEv,
         Ev.stepEv])

/-- `test_audio(net, criterion, data, opt)` (train.py lines 81-92): sets eval
mode, moves tensors to CUDA when `opt.cuda`, runs the forward pass on the
unscaled `volumes` and computes the loss; no backward, no optimizer step.
Returns the per-batch stats dict `{test loss, accuracy}` and the trace. -/
def test_audio (ops : Ops) (cuda : Bool) (st : State) (b : Batch) :
    State × Stats × List Ev :=
  let net1 : NetState := { st.net with trainMode := false }
  let output := ops.forward net1.params b.volumes b.lengths
  let losses := ops.bce output b.labels
  (⟨net1, st.optim⟩,
   [("test loss", losses), ("accuracy", ops.acc b.labels output)],
   [Ev.netEvalEv]
     ++ (if cuda then [Ev.cudaMoveEv "volumes", Ev.cudaMoveEv "labels"] else [])
     ++ [Ev.forwardEv b.volumes b.lengths, Ev.lossEv])

/-- One iteration of the training loop of `run_audio` (lines 33-35): call
`train_audio` on the batch and fold its loss dict into `avg_stats` via
`update_stats`. -/
def trainFoldA (ops : Ops) (cuda : Bool)
    (acc : State × Stats × List Ev) (b : Batch) : State × Stats × List Ev :=
  let r := train_audio ops cuda acc.1 b
  (r.1, update_stats acc.2.1 r.2.1, acc.2.2 ++ (Ev.trainBatchEv b :: r.2.2))

/-- The training loop of one epoch of `run_audio` (lines 32-35), starting
from the fresh `avg_stats = defaultdict(float)`. -/
def epochTrainA (ops : Ops) (cuda : Bool) (st : State) (batches : List Batch) :
    State × Stats × List Ev :=
  batches.foldl (trainFoldA ops cuda) (st, [], [])

/-- One iteration of the testing loop of `run_audio` (lines 48-50). -/
def testFoldA (ops : Ops) (cuda : Bool)
    (acc : State × Stats × List Ev) (b : Batch) : State × Stats × List Ev :=
  let r := test_audio ops cuda acc.1 b
  (r.1, update_stats acc.2.1 r.2.1, acc.2.2 ++ (Ev.testBatchEv b :: r.2.2))

/-- The testing loop of one epoch of `run_audio` (lines 46-50), under
`torch.no_grad()`, starting from a fresh `avg_stats`. -/
def epochTestA (ops : Ops) (cuda : Bool) (st : State) (batches : List Batch) :
    State × Stats × List Ev :=
  batches.foldl (testFoldA ops cuda) (st, [], [])

/-- The `for k, v in avg_stats.items()` logging loop (lines 39-42 and 55-58):
for each key it sets `avg = v / n` and emits `writer.add_scalar(k, avg,
epoch)`; returns the final value of the `avg` variable (`init` if the dict
is empty) and the emitted events. -/
def logStats (writer : String) (epoch : Nat) (n : Nat) (init : Rat)
    (stats : Stats) : Rat × List Ev :=
  stats.foldl
    (fun acc kv =>
      (kv.2 / (n : Rat),
       acc.2 ++ [Ev.addScalarEv writer kv.1 (kv.2 / (n : Rat)) epoch]))
    (init, [])

/-- The body of one epoch of `run_audio` (lines 30-63): train over
`train_loader`, log averaged training stats, test over `test_loader` with a
fresh `avg_stats` and `avg = 0`, log averaged testing stats, and at epochs
with `epoch % opt.checkpoint_interval == 0` call
`net_saver.save_if_best(net, avg)` with the last value of `avg`. -/
def run_audio_epoch (ops : Ops) (opt : Opt) (trainL testL : List Batch)
    (st : State) (epoch : Nat) : State × List Ev :=
  let tr := epochTrainA ops opt.cuda st trainL
  let logT := logStats "train" epoch trainL.length 0 tr.2.1
  let te := epochTestA ops opt.cuda tr.1 testL
  let logE := logStats "test" epoch testL.length 0 te.2.1
  (te.1,
   Ev.epochStartEv epoch :: tr.2.2 ++ logT.2 ++ [Ev.printEv]
     ++ te.2.2 ++ logE.2 ++ [Ev.printEv]
     ++ (if epoch % opt.checkpoint_interval == 0 then
           [Ev.saveIfBestEv logE.1 epoch]
         else []))

/-- `run_audio(opt)` (lines 14-63): iterate `epoch` over
`range(opt.epoch, opt.n_epochs)` and run the epoch body.  The loaders and
the initial network/optimizer state are parameters, standing for
`initialize_loaders` and the `crNN_audio`/Adam initialisation. -/
def run_audio (ops : Ops) (opt : Opt) (trainL testL : List Batch)
    (st0 : State) : State × List Ev :=
  (List.range' opt.epoch (opt.n_epochs - opt.epoch)).foldl
    (fun acc e =>
      let r := run_audio_epoch ops opt trainL testL acc.1 e
      (r.1, acc.2 ++ r.2))
    (st0, [])

/-- Modelled from the spec: `to_variables` lives in the repository's `main`
module, which is not under `src/`; it wraps the batch tensors as framework
variables (moving them to the device when `cuda`), which our scalar
abstraction represents by the identity on batch values. -/
def to_variables (cuda : Bool) (b : BatchAV) : BatchAV := b

/-- `train(net, criterion, optimizer, data, opt)` (lines 146-156), the
audio+video variant: train mode, zero gradients, forward on
`(frames[0], volumes[0])`, loss, backward, one optimizer step; returns the
per-batch dict `{train loss}`. -/
def train (ops : Ops) (st : State) (b : BatchAV) : State × Stats × List Ev :=
  let net1 : NetState := { st.net with trainMode := true }
  let output := ops.forwardAV net1.params b.frame0 b.audio0
  let losses := ops.ce output b.labels
  let net2 : NetState := { net1 with params := ops.stepNet net1.params losses }
  let opt2 : OptimState := { version := ops.stepOpt st.optim.version }
  (⟨net2, opt2⟩,
   [("train loss", losses)],
   [Ev.netTrainEv, Ev.zeroGradEv, Ev.forwardAVEv b.frame0 b.audio0, Ev.lossEv,
    Ev.backwardEv, Ev.stepEv])

/-- `test(net, criterion, data, opt)` (lines 158-167), the audio+video
variant: eval mode, forward, loss; returns the per-batch dict
`{test loss}`. -/
def test (ops : Ops) (st : State) (b : BatchAV) : State × Stats × List Ev :=
  let net1 : NetState := { st.net with trainMode := false }
  let output := ops.forwardAV net1.params b.frame0 b.audio0
  let losses := ops.ce output b.labels
  (⟨net1, st.optim⟩,
   [("test loss", losses)],
   [Ev.netEvalEv, Ev.forwardAVEv b.frame0 b.audio0, Ev.lossEv])

/-- One iteration of the training loop of `run` (lines 112-115):
`to_variables`, `train`, `update_stats`. -/
def trainFoldAV (ops : Ops) (cuda : Bool)
    (acc : State × Stats × List Ev) (b : BatchAV) : State × Stats × List Ev :=
  let r := train ops acc.1 (to_variables cuda b)
  (r.1, update_stats acc.2.1 r.2.1,
   acc.2.2 ++ (Ev.trainBatchAVEv (to_variables cuda b) :: r.2.2))

/-- The training loop of one epoch of `run` (lines 111-115). -/
def epochTrainAV (ops : Ops) (cuda : Bool) (st : State)
    (batches : List BatchAV) : State × Stats × List Ev :=
  batches.foldl (trainFoldAV ops cuda) (st, [], [])

/-- One iteration of the testing loop of `run` (lines 128-131). -/
def testFoldAV (ops : Ops) (cuda : Bool)
    (acc : State × Stats × List Ev) (b : BatchAV) : State × Stats × List Ev :=
  let r := test ops acc.1 (to_variables cuda b)
  (r.1, update_stats acc.2.1 r.2.1,
   acc.2.2 ++ (Ev.testBatchAVEv (to_variables cuda b) :: r.2.2))

/-- The testing loop of one epoch of `run` (lines 126-131). -/
def epochTestAV (ops : Ops) (cuda : Bool) (st : State)
    (batches : List BatchAV) : State × Stats × List Ev :=
  batches.foldl (testFoldAV ops cuda) (st, [], [])

/-- The body of one epoch of `run` (lines 109-144), structurally identical
to `run_audio_epoch`. -/
def run_epoch (ops : Ops) (opt : Opt) (trainL testL : List BatchAV)
    (st : State) (epoch : Nat) : State × List Ev :=
  let tr := epochTrainAV ops opt.cuda st trainL
  let logT := logStats "train" epoch trainL.length 0 tr.2.1
  let te := epochTestAV ops opt.cuda tr.1 testL
  let logE := logStats "test" epoch testL.length 0 te.2.1
  (te.1,
   Ev.epochStartEv epoch :: tr.2.2 ++ logT.2 ++ [Ev.printEv]
     ++ te.2.2 ++ logE.2 ++ [Ev.printEv]
     ++ (if epoch % opt.checkpoint_interval == 0 then
           [Ev.saveIfBestEv logE.1 epoch]
         else []))

/-- `run(opt)` (lines 94-144), the audio+video training routine. -/
def run (ops : Ops) (opt : Opt) (trainL testL : List BatchAV)
    (st0 : State) : State × List Ev :=
  (List.range' opt.epoch (opt.n_epochs - opt.epoch)).foldl
    (fun acc e =>
      let r := run_epoch ops opt trainL testL acc.1 e
      (r.1, acc.2 ++ r.2))
    (st0, [])

/-- The accumulator of the `benchmark` loops (lines 175-196): the `output`
and `label_glob` numpy arrays (as lists of scalars), the running `idx`, and
the log of indices written so far (one entry per loop iteration; the same
index is written in both arrays). -/
structure BenchAcc where
  output : List Rat
  label_glob : List Rat
  idx : Nat
  writes : List Nat
  deriving Repr, DecidableEq

/-- The body shared by both `benchmark` loops (lines 179-186 and 189-196):
write `net(frames[0], volumes[0])` into `output[idx]`, `labels[0]` into
`label_glob[idx]`, and increment `idx`. -/
def bench_step (ops : Ops) (params : Nat) (acc : BenchAcc) (b : BatchAV) :
    BenchAcc :=
  { output := acc.output.set acc.idx (ops.forwardAV params b.frame0 b.audio0)
    label_glob := acc.label_glob.set acc.idx b.labels
    idx := acc.idx + 1
    writes := acc.writes ++ [acc.idx] }

/-- `np.round`, abstracted to rounding a rational to the nearest integer. -/
def npRound (x : Rat) : Rat := (round x : ℤ)

/-- `benchmark(opt)` (lines 169-200): allocate `output` and `label_glob` of
length `len(test_loader) + len(train_loader)` filled with zeros, run the
write loop over the training loader and then over the test loader under
`torch.no_grad()`, and return `final_tag = np.round(output)` together with
the final loop accumulator. -/
def benchmark (ops : Ops) (opt : Opt) (trainL testL : List BatchAV)
    (params : Nat) : List Rat × BenchAcc :=
  let n := testL.length + trainL.length
  let s0 : BenchAcc :=
    { output := List.replicate n 0
      label_glob := List.replicate n 0
      idx := 0
      writes := [] }
  let s1 := trainL.foldl
    (fun a b => bench_step ops params a (to_variables opt.cuda b)) s0
  let s2 := testL.foldl
    (fun a b => bench_step ops params a (to_variables opt.cuda b)) s1
  (s2.output.map npRound, s2)

/-- The routines defined by `train.py` that the entry point could invoke. -/
inductive Routine where
  | runAudioR : Routine
  | runR : Routine
  | benchmarkR : Routine
  deriving Repr, DecidableEq

/-- The `if __name__ == '__main__'` dispatch (lines 209-214): with
`opt.benchmark` set it calls `benchmark(opt)`, otherwise `run_audio(opt)`.
No other option influences the dispatch. -/
def mainDispatch (benchmark : Bool) : Routine :=
  if benchmark then Routine.benchmarkR else Routine.runAudioR

/-! Trace observations. -/

/-- The `save_if_best` calls of a trace, as `(score, epoch)` pairs, in
order. -/
def saveEvents (evs : List Ev) : List (Rat × Nat) :=
  evs.filterMap fun e =>
    match e with
    | Ev.saveIfBestEv s n => some (s, n)
    | _ => none

/-- The epochs at which a trace attempts a `save_if_best` call. -/
def savedEpochs (evs : List Ev) : List Nat := (saveEvents evs).map Prod.snd

/-- The epoch numbers whose loop body a trace entered, in order. -/
def epochStarts (evs : List Ev) : List Nat :=
  evs.filterMap fun e =>
    match e with
    | Ev.epochStartEv n => some n
    | _ => none

/-- The audio batches on which a trace invoked `train_audio`, in order. -/
def trainBatches (evs : List Ev) : List Batch :=
  evs.filterMap fun e =>
    match e with
    | Ev.trainBatchEv b => some b
    | _ => none

/-- The inputs of the `crNN_audio` forward calls of a trace, in order. -/
def forwardInputs (evs : List Ev) : List Rat :=
  evs.filterMap fun e =>
    match e with
    | Ev.forwardEv x _ => some x
    | _ => none

/-- The number of `optimizer.step()` calls in a trace. -/
def stepCount (evs : List Ev) : Nat :=
  evs.countP fun e =>
    match e with
    | Ev.stepEv => true
    | _ => false

/-- The `(key, value)` pairs logged through a given writer in a trace, in
order. -/
def addScalars (w : String) (evs : List Ev) : List (String × Rat) :=
  evs.filterMap fun e =>
    match e with
    | Ev.addScalarEv w' k v _ => if w' == w then some (k, v) else none
    | _ => none

/-- The mode/gradient/forward/loss/backward/step calls of a trace, keeping
their order and dropping everything else (device moves, loop markers,
logging). -/
def coreCalls (evs : List Ev) : List Ev :=
  evs.filter fun e =>
    match e with
    | Ev.netTrainEv | Ev.netEvalEv | Ev.zeroGradEv | Ev.forwardEv _ _
    | Ev.forwardAVEv _ _ | Ev.lossEv | Ev.backwardEv | Ev.stepEv => true
    | _ => false

/-- Whether an event is the CUDA move of the named tensor. -/
def isCudaMove (t : String) (e : Ev) : Bool :=
  match e with
  | Ev.cudaMoveEv s => s == t
  | _ => false

/-- Whether an event is a `crNN_audio` forward call. -/
def isForwardCall (e : Ev) : Bool :=
  match e with
  | Ev.forwardEv _ _ => true
  | _ => false

/-- The index of the first event satisfying `p`, if any. -/
def firstIdx (p : Ev → Bool) : List Ev → Option Nat
  | [] => none
  | e :: r => if p e then some 0 else (firstIdx p r).map (· + 1)

/-- The value the `avg` variable holds after the logging loop: the last
entry's value divided by `n` (the Python `v / len(loader)` of the final
iteration), or `0` — the initialisation of `avg` — when the dict is
empty. -/
def lastStatAvg (stats : Stats) (n : Nat) : Rat :=
  match stats.getLast? with
  | none => 0
  | some kv => kv.2 / (n : Rat)

/-- The value a stats dict holds for a key (`0.0` for an absent key, as in a
`defaultdict(float)`). -/
def statOf (d : Stats) (k : String) : Rat :=
  ((d.find? (fun p => p.1 == k)).map Prod.snd).getD 0

/-- The sum of one statistic over a sequence of per-batch dicts. -/
def sumStat (k : String) (ds : List Stats) : Rat :=
  (ds.map (fun d => statOf d k)).sum

/-- The per-batch stats dicts produced by the training loop of one
`run_audio` epoch, in batch order (the state evolves across batches, so the
later dicts depend on the earlier optimizer steps). -/
def trainDictsA (ops : Ops) (cuda : Bool) : State → List Batch → List Stats
  | _, [] => []
  | st, b :: bs =>
    (train_audio ops cuda st b).2.1
      :: trainDictsA ops cuda (train_audio ops cuda st b).1 bs

/-- The per-batch stats dicts produced by the testing loop of one
`run_audio` epoch, in batch order. -/
def testDictsA (ops : Ops) (cuda : Bool) : State → List Batch → List Stats
  | _, [] => []
  | st, b :: bs =>
    (test_audio ops cuda st b).2.1
      :: testDictsA ops cuda (test_audio ops cuda st b).1 bs

/-- The state after the training loop of one `run_audio` epoch. -/
def trainStateA (ops : Ops) (cuda : Bool) : State → List Batch → State
  | st, [] => st
  | st, b :: bs => trainStateA ops cuda (train_audio ops cuda st b).1 bs

/-- The trace of the training loop of one `run_audio` epoch. -/
def trainTraceA (ops : Ops) (cuda : Bool) : State → List Batch → List Ev
  | _, [] => []
  | st, b :: bs =>
    (Ev.trainBatchEv b :: (train_audio ops cuda st b).2.2)
      ++ trainTraceA ops cuda (train_audio ops cuda st b).1 bs

/-- The state after the testing loop of one `run_audio` epoch. -/
def testStateA (ops : Ops) (cuda : Bool) : State → List Batch → State
  | st, [] => st
  | st, b :: bs => testStateA ops cuda (test_audio ops cuda st b).1 bs

/-- The trace of the testing loop of one `run_audio` epoch. -/
def testTraceA (ops : Ops) (cuda : Bool) : State → List Batch → List Ev
  | _, [] => []
  | st, b :: bs =>
    (Ev.testBatchEv b :: (test_audio ops cuda st b).2.2)
      ++ testTraceA ops cuda (test_audio ops cuda st b).1 bs

/-- The training loop of a `run_audio` epoch, decomposed: final state,
accumulated stats as a fold of the per-batch dicts, and the concatenated
per-batch traces. -/
theorem epochTrainA_foldl (ops : Ops) (cuda : Bool) (bs : List Batch) :
    ∀ (st : State) (stats : Stats) (evs : List Ev),
      bs.foldl (trainFoldA ops cuda) (st, stats, evs)
        = (trainStateA ops cuda st bs,
           (trainDictsA ops cuda st bs).foldl update_stats stats,
           evs ++ trainTraceA ops cuda st bs) := by
  induction bs with
  | nil => intro st stats evs; simp [trainStateA, trainDictsA, trainTraceA]
  | cons b bs ih =>
    intro st stats evs
    simp only [List.foldl_cons, trainFoldA, ih, trainStateA, trainDictsA,
      trainTraceA, List.foldl_cons, List.append_assoc, List.cons_append]

/-- The testing loop of a `run_audio` epoch, decomposed. -/
theorem epochTestA_foldl (ops : Ops) (cuda : Bool) (bs : List Batch) :
    ∀ (st : State) (stats : Stats) (evs : List Ev),
      bs.foldl (testFoldA ops cuda) (st, stats, evs)
        = (testStateA ops cuda st bs,
           (testDictsA ops cuda st bs).foldl update_stats stats,
           evs ++ testTraceA ops cuda st bs) := by
  induction bs with
  | nil => intro st stats evs; simp [testStateA, testDictsA, testTraceA]
  | cons b bs ih =>
    intro st stats evs
    simp only [List.foldl_cons, testFoldA, ih, testStateA, testDictsA,
      testTraceA, List.foldl_cons, List.append_assoc, List.cons_append]

/-- `epochTrainA`, decomposed. -/
theorem epochTrainA_eq (ops : Ops) (cuda : Bool) (st : State)
    (bs : List Batch) :
    epochTrainA ops cuda st bs
      = (trainStateA ops cuda st bs,
         (trainDictsA ops cuda st bs).foldl update_stats [],
         trainTraceA ops cuda st bs) := by
  simpa [epochTrainA] using epochTrainA_foldl ops cuda bs st [] []

/-- `epochTestA`, decomposed. -/
theorem epochTestA_eq (ops : Ops) (cuda : Bool) (st : State)
    (bs : List Batch) :
    epochTestA ops cuda st bs
      = (testStateA ops cuda st bs,
         (testDictsA ops cuda st bs).foldl update_stats [],
         testTraceA ops cuda st bs) := by
  simpa [epochTestA] using epochTestA_foldl ops cuda bs st [] []

/-- The per-batch stats dicts of the training loop of one `run` epoch. -/
def trainDictsAV (ops : Ops) (cuda : Bool) : State → List BatchAV → List Stats
  | _, [] => []
  | st, b :: bs =>
    (train ops st (to_variables cuda b)).2.1
      :: trainDictsAV ops cuda (train ops st (to_variables cuda b)).1 bs

/-- The state after the training loop of one `run` epoch. -/
def trainStateAV (ops : Ops) (cuda : Bool) : State → List BatchAV → State
  | st, [] => st
  | st, b :: bs =>
    trainStateAV ops cuda (train ops st (to_variables cuda b)).1 bs

/-- The trace of the training loop of one `run` epoch. -/
def trainTraceAV (ops : Ops) (cuda : Bool) : State → List BatchAV → List Ev
  | _, [] => []
  | st, b :: bs =>
    (Ev.trainBatchAVEv (to_variables cuda b)
        :: (train ops st (to_variables cuda b)).2.2)
      ++ trainTraceAV ops cuda (train ops st (to_variables cuda b)).1 bs

/-- The per-batch stats dicts of the testing loop of one `run` epoch. -/
def testDictsAV (ops : Ops) (cuda : Bool) : State → List BatchAV → List Stats
  | _, [] => []
  | st, b :: bs =>
    (test ops st (to_variables cuda b)).2.1
      :: testDictsAV ops cuda (test ops st (to_variables cuda b)).1 bs

/-- The state after the testing loop of one `run` epoch. -/
def testStateAV (ops : Ops) (cuda : Bool) : State → List BatchAV → State
  | st, [] => st
  | st, b :: bs =>
    testStateAV ops cuda (test ops st (to_variables cuda b)).1 bs

/-- The trace of the testing loop of one `run` epoch. -/
def testTraceAV (ops : Ops) (cuda : Bool) : State → List BatchAV → List Ev
  | _, [] => []
  | st, b :: bs =>
    (Ev.testBatchAVEv (to_variables cuda b)
        :: (test ops st (to_variables cuda b)).2.2)
      ++ testTraceAV ops cuda (test ops st (to_variables cuda b)).1 bs

/-- The training loop of a `run` epoch, decomposed. -/
theorem epochTrainAV_foldl (ops : Ops) (cuda : Bool) (bs : List BatchAV) :
    ∀ (st : State) (stats : Stats) (evs : List Ev),
      bs.foldl (trainFoldAV ops cuda) (st, stats, evs)
        = (trainStateAV ops cuda st bs,
           (trainDictsAV ops cuda st bs).foldl update_stats stats,
           evs ++ trainTraceAV ops cuda st bs) := by
  induction bs with
  | nil => intro st stats evs; simp [trainStateAV, trainDictsAV, trainTraceAV]
  | cons b bs ih =>
    intro st stats evs
    simp only [List.foldl_cons, trainFoldAV, ih, trainStateAV, trainDictsAV,
      trainTraceAV, List.append_assoc, List.cons_append]

/-- The testing loop of a `run` epoch, decomposed. -/
theorem epochTestAV_foldl (ops : Ops) (cuda : Bool) (bs : List BatchAV) :
    ∀ (st : State) (stats : Stats) (evs : List Ev),
      bs.foldl (testFoldAV ops cuda) (st, stats, evs)
        = (testStateAV ops cuda st bs,
           (testDictsAV ops cuda st bs).foldl update_stats stats,
           evs ++ testTraceAV ops cuda st bs) := by
  induction bs with
  | nil => intro st stats evs; simp [testStateAV, testDictsAV, testTraceAV]
  | cons b bs ih =>
    intro st stats evs
    simp only [List.foldl_cons, testFoldAV, ih, testStateAV, testDictsAV,
      testTraceAV, List.append_assoc, List.cons_append]

/-- `epochTrainAV`, decomposed. -/
theorem epochTrainAV_eq (ops : Ops) (cuda : Bool) (st : State)
    (bs : List BatchAV) :
    epochTrainAV ops cuda st bs
      = (trainStateAV ops cuda st bs,
         (trainDictsAV ops cuda st bs).foldl update_stats [],
         trainTraceAV ops cuda st bs) := by
  simpa [epochTrainAV] using epochTrainAV_foldl ops cuda bs st [] []

/-- `epochTestAV`, decomposed. -/
theorem epochTestAV_eq (ops : Ops) (cuda : Bool) (st : State)
    (bs : List BatchAV) :
    epochTestAV ops cuda st bs
      = (testStateAV ops cuda st bs,
         (testDictsAV ops cuda st bs).foldl update_stats [],
         testTraceAV ops cuda st bs) := by
  simpa [epochTestAV] using epochTestAV_foldl ops cuda bs st [] []

/-- The state after a sequence of `run_audio` epochs. -/
def runStateA (ops : Ops) (opt : Opt) (trainL testL : List Batch) :
    State → List Nat → State
  | st, [] => st
  | st, e :: es =>
    runStateA ops opt trainL testL
      (run_audio_epoch ops opt trainL testL st e).1 es

/-- The trace of a sequence of `run_audio` epochs. -/
def runTraceA (ops : Ops) (opt : Opt) (trainL testL : List Batch) :
    State → List Nat → List Ev
  | _, [] => []
  | st, e :: es =>
    (run_audio_epoch ops opt trainL testL st e).2
      ++ runTraceA ops opt trainL testL
           (run_audio_epoch ops opt trainL testL st e).1 es

/-- The epoch loop of `run_audio`, decomposed. -/
theorem run_audio_foldl (ops : Ops) (opt : Opt) (trainL testL : List Batch)
    (es : List Nat) :
    ∀ (st : State) (evs : List Ev),
      es.foldl
          (fun acc e =>
            let r := run_audio_epoch ops opt trainL testL acc.1 e
            (r.1, acc.2 ++ r.2))
          (st, evs)
        = (runStateA ops opt trainL testL st es,
           evs ++ runTraceA ops opt trainL testL st es) := by
  induction es with
  | nil => intro st evs; simp [runStateA, runTraceA]
  | cons e es ih =>
    intro st evs
    simp only [List.foldl_cons, ih, runStateA, runTraceA, List.append_assoc]

/-- `run_audio`, decomposed into state and trace over
`range(opt.epoch, opt.n_epochs)`. -/
theorem run_audio_eq (ops : Ops) (opt : Opt) (trainL testL : List Batch)
    (st0 : State) :
    run_audio ops opt trainL testL st0
      = (runStateA ops opt trainL testL st0
           (List.range' opt.epoch (opt.n_epochs - opt.epoch)),
         runTraceA ops opt trainL testL st0
           (List.range' opt.epoch (opt.n_epochs - opt.epoch))) := by
  simpa [run_audio] using
    run_audio_foldl ops opt trainL testL
      (List.range' opt.epoch (opt.n_epochs - opt.epoch)) st0 []

/-- The state after a sequence of `run` epochs. -/
def runStateAV (ops : Ops) (opt : Opt) (trainL testL : List BatchAV) :
    State → List Nat → State
  | st, [] => st
  | st, e :: es =>
    runStateAV ops opt trainL testL
      (run_epoch ops opt trainL testL st e).1 es

/-- The trace of a sequence of `run` epochs. -/
def runTraceAV (ops : Ops) (opt : Opt) (trainL testL : List BatchAV) :
    State → List Nat → List Ev
  | _, [] => []
  | st, e :: es =>
    (run_epoch ops opt trainL testL st e).2
      ++ runTraceAV ops opt trainL testL
           (run_epoch ops opt trainL testL st e).1 es

/-- The epoch loop of `run`, decomposed. -/
theorem run_foldl (ops : Ops) (opt : Opt) (trainL testL : List BatchAV)
    (es : List Nat) :
    ∀ (st : State) (evs : List Ev),
      es.foldl
          (fun acc e =>
            let r := run_epoch ops opt trainL testL acc.1 e
            (r.1, acc.2 ++ r.2))
          (st, evs)
        = (runStateAV ops opt trainL testL st es,
           evs ++ runTraceAV ops opt trainL testL st es) := by
  induction es with
  | nil => intro st evs; simp [runStateAV, runTraceAV]
  | cons e es ih =>
    intro st evs
    simp only [List.foldl_cons, ih, runStateAV, runTraceAV, List.append_assoc]

/-- `run`, decomposed into state and trace over
`range(opt.epoch, opt.n_epochs)`. -/
theorem run_eq (ops : Ops) (opt : Opt) (trainL testL : List BatchAV)
    (st0 : State) :
    run ops opt trainL testL st0
      = (runStateAV ops opt trainL testL st0
           (List.range' opt.epoch (opt.n_epochs - opt.epoch)),
         runTraceAV ops opt trainL testL st0
           (List.range' opt.epoch (opt.n_epochs - opt.epoch))) := by
  simpa [run] using
    run_foldl ops opt trainL testL
      (List.range' opt.epoch (opt.n_epochs - opt.epoch)) st0 []

/-- The logging loop, in closed form: the final `avg` is the last dict
entry's value divided by `n` (the initial value for an empty dict), and the
events are one `add_scalar` per dict entry, in order. -/
theorem logStats_foldl (w : String) (e : Nat) (n : Nat) (stats : Stats) :
    ∀ (init : Rat) (evs0 : List Ev),
      stats.foldl
          (fun acc kv =>
            (kv.2 / (n : Rat),
             acc.2 ++ [Ev.addScalarEv w kv.1 (kv.2 / (n : Rat)) e]))
          (init, evs0)
        = ((stats.getLast?.map (fun kv => kv.2 / (n : Rat))).getD init,
           evs0 ++ stats.map
             (fun kv => Ev.addScalarEv w kv.1 (kv.2 / (n : Rat)) e)) := by
  induction stats with
  | nil => intro init evs0; simp
  | cons kv rest ih =>
    intro init evs0
    rw [List.foldl_cons, ih]
    cases rest with
    | nil => simp
    | cons kv2 rest2 =>
      have hne : (kv2 :: rest2) ≠ [] := by simp
      rcases Option.isSome_iff_exists.mp (List.getLast?_isSome.mpr hne) with
        ⟨x, hx⟩
      simp [List.getLast?_cons_cons, hx]

/-- `logStats`, in closed form. -/
theorem logStats_eq (w : String) (e : Nat) (n : Nat) (init : Rat)
    (stats : Stats) :
    logStats w e n init stats
      = ((stats.getLast?.map (fun kv => kv.2 / (n : Rat))).getD init,
         stats.map (fun kv => Ev.addScalarEv w kv.1 (kv.2 / (n : Rat)) e)) := by
  simpa [logStats] using logStats_foldl w e n stats init []

/-- The final `avg` of the logging loop started from `0` is `lastStatAvg`. -/
theorem logStats_avg (w : String) (e : Nat) (n : Nat) (stats : Stats) :
    (logStats w e n 0 stats).1 = lastStatAvg stats n := by
  rw [logStats_eq]
  cases h : stats.getLast? with
  | none => simp [lastStatAvg, h]
  | some kv => simp [lastStatAvg, h]

/-- The test-stats dictionary accumulated by the testing loop of a
`run_audio` epoch started in state `st` (the training loop runs first and
moves the state). -/
def testStatsA (ops : Ops) (opt : Opt) (trainL testL : List Batch)
    (st : State) : Stats :=
  (epochTestA ops opt.cuda (epochTrainA ops opt.cuda st trainL).1 testL).2.1

/-- The test-stats dictionary accumulated by the testing loop of a `run`
epoch started in state `st`. -/
def testStatsAV (ops : Ops) (opt : Opt) (trainL testL : List BatchAV)
    (st : State) : Stats :=
  (epochTestAV ops opt.cuda (epochTrainAV ops opt.cuda st trainL).1 testL).2.1

theorem lastStatAvg_eq_getD (stats : Stats) (n : Nat) :
    lastStatAvg stats n
      = (stats.getLast?.map (fun kv => kv.2 / (n : Rat))).getD 0 := by
  cases h : stats.getLast? <;> simp [lastStatAvg, h]

/-! Which events each loop segment contains. -/

theorem saveEvents_train_audio (ops : Ops) (cuda : Bool) (st : State)
    (b : Batch) : saveEvents (train_audio ops cuda st b).2.2 = [] := by
  cases cuda <;> simp [saveEvents, train_audio]

theorem saveEvents_test_audio (ops : Ops) (cuda : Bool) (st : State)
    (b : Batch) : saveEvents (test_audio ops cuda st b).2.2 = [] := by
  cases cuda <;> simp [saveEvents, test_audio]

theorem saveEvents_trainTraceA (ops : Ops) (cuda : Bool) :
    ∀ (st : State) (bs : List Batch),
      saveEvents (trainTraceA ops cuda st bs) = [] := by
  intro st bs
  induction bs generalizing st with
  | nil => simp [trainTraceA, saveEvents]
  | cons b bs ih =>
    have h := saveEvents_train_audio ops cuda st b
    have h2 := ih (train_audio ops cuda st b).1
    simp [trainTraceA, saveEvents, List.filterMap_append] at h h2 ⊢
    exact ⟨h, h2⟩

theorem saveEvents_testTraceA (ops : Ops) (cuda : Bool) :
    ∀ (st : State) (bs : List Batch),
      saveEvents (testTraceA ops cuda st bs) = [] := by
  intro st bs
  induction bs generalizing st with
  | nil => simp [testTraceA, saveEvents]
  | cons b bs ih =>
    have h := saveEvents_test_audio ops cuda st b
    have h2 := ih (test_audio ops cuda st b).1
    simp [testTraceA, saveEvents, List.filterMap_append] at h h2 ⊢
    exact ⟨h, h2⟩

theorem saveEvents_trainTraceAV (ops : Ops) (cuda : Bool) :
    ∀ (st : State) (bs : List BatchAV),
      saveEvents (trainTraceAV ops cuda st bs) = [] := by
  intro st bs
  induction bs generalizing st with
  | nil => simp [trainTraceAV, saveEvents]
  | cons b bs ih =>
    simp [trainTraceAV, saveEvents, List.filterMap_append, train,
      to_variables] at ih ⊢
    exact ih _

theorem saveEvents_testTraceAV (ops : Ops) (cuda : Bool) :
    ∀ (st : State) (bs : List BatchAV),
      saveEvents (testTraceAV ops cuda st bs) = [] := by
  intro st bs
  induction bs generalizing st with
  | nil => simp [testTraceAV, saveEvents]
  | cons b bs ih =>
    simp [testTraceAV, saveEvents, List.filterMap_append, test,
      to_variables] at ih ⊢
    exact ih _

theorem saveEvents_logTrace (w : String) (e : Nat) (n : Nat) (stats : Stats) :
    saveEvents
        (stats.map (fun kv => Ev.addScalarEv w kv.1 (kv.2 / (n : Rat)) e))
      = [] := by
  simp only [saveEvents, List.filterMap_map]
  rw [List.filterMap_eq_nil_iff]
  intro a ha
  simp

theorem saveEvents_nil : saveEvents [] = [] := rfl

theorem saveEvents_append (l1 l2 : List Ev) :
    saveEvents (l1 ++ l2) = saveEvents l1 ++ saveEvents l2 :=
  List.filterMap_append l1 l2 _

theorem saveEvents_cons_epochStart (n : Nat) (l : List Ev) :
    saveEvents (Ev.epochStartEv n :: l) = saveEvents l := by
  simp [saveEvents]

theorem saveEvents_cons_print (l : List Ev) :
    saveEvents (Ev.printEv :: l) = saveEvents l := by
  simp [saveEvents]

theorem saveEvents_save_list (s : Rat) (n : Nat) :
    saveEvents [Ev.saveIfBestEv s n] = [(s, n)] := by
  simp [saveEvents]

/-- The `save_if_best` calls of one `run_audio` epoch: exactly one, carrying
the final `avg` of the test logging loop, when
`epoch % checkpoint_interval == 0`; none otherwise. -/
theorem saveEvents_run_audio_epoch (ops : Ops) (opt : Opt)
    (trainL testL : List Batch) (st : State) (e : Nat) :
    saveEvents (run_audio_epoch ops opt trainL testL st e).2
      = if e % opt.checkpoint_interval == 0 then
          [(lastStatAvg (testStatsA ops opt trainL testL st) testL.length, e)]
        else [] := by
  have havg :
      lastStatAvg (testStatsA ops opt trainL testL st) testL.length
        = (logStats "test" e testL.length 0
            (epochTestA ops opt.cuda (epochTrainA ops opt.cuda st trainL).1
              testL).2.1).1 := by
    rw [logStats_eq, lastStatAvg_eq_getD, testStatsA]
  rw [havg, run_audio_epoch]
  simp only [logStats_eq, epochTrainA_eq, epochTestA_eq]
  simp only [saveEvents_append, saveEvents_cons_epochStart,
    saveEvents_cons_print, saveEvents_nil, saveEvents_trainTraceA,
    saveEvents_testTraceA, saveEvents_logTrace, List.nil_append,
    List.append_nil]
  cases h : (e % opt.checkpoint_interval == 0) <;> simp [h, saveEvents]

/-- The `save_if_best` calls of one `run` epoch. -/
theorem saveEvents_run_epoch (ops : Ops) (opt : Opt)
    (trainL testL : List BatchAV) (st : State) (e : Nat) :
    saveEvents (run_epoch ops opt trainL testL st e).2
      = if e % opt.checkpoint_interval == 0 then
          [(lastStatAvg (testStatsAV ops opt trainL testL st) testL.length, e)]
        else [] := by
  have havg :
      lastStatAvg (testStatsAV ops opt trainL testL st) testL.length
        = (logStats "test" e testL.length 0
            (epochTestAV ops opt.cuda (epochTrainAV ops opt.cuda st trainL).1
              testL).2.1).1 := by
    rw [logStats_eq, lastStatAvg_eq_getD, testStatsAV]
  rw [havg, run_epoch]
  simp only [logStats_eq, epochTrainAV_eq, epochTestAV_eq]
  simp only [saveEvents_append, saveEvents_cons_epochStart,
    saveEvents_cons_print, saveEvents_nil, saveEvents_trainTraceAV,
    saveEvents_testTraceAV, saveEvents_logTrace, List.nil_append,
    List.append_nil]
  cases h : (e % opt.checkpoint_interval == 0) <;> simp [h, saveEvents]

/-- Across a sequence of `run_audio` epochs, the epochs that attempt a save
are exactly those with `epoch % checkpoint_interval == 0`. -/
theorem savedEpochs_runTraceA (ops : Ops) (opt : Opt)
    (trainL testL : List Batch) :
    ∀ (es : List Nat) (st : State),
      savedEpochs (runTraceA ops opt trainL testL st es)
        = es.filter (fun e => e % opt.checkpoint_interval == 0) := by
  intro es
  induction es with
  | nil => intro st; simp [runTraceA, savedEpochs, saveEvents]
  | cons e es ih =>
    intro st
    rw [runTraceA, savedEpochs, saveEvents_append, List.map_append]
    rw [show (saveEvents (run_audio_epoch ops opt trainL testL st e).2).map
          Prod.snd = savedEpochs (run_audio_epoch ops opt trainL testL st e).2
        from rfl]
    rw [show (saveEvents (runTraceA ops opt trainL testL
          (run_audio_epoch ops opt trainL testL st e).1 es)).map Prod.snd
          = savedEpochs (runTraceA ops opt trainL testL
              (run_audio_epoch ops opt trainL testL st e).1 es) from rfl]
    rw [ih, savedEpochs, saveEvents_run_audio_epoch, List.filter_cons]
    cases h : (e % opt.checkpoint_interval == 0) <;> simp [h]

/-- Across a sequence of `run` epochs, the epochs that attempt a save are
exactly those with `epoch % checkpoint_interval == 0`. -/
theorem savedEpochs_runTraceAV (ops : Ops) (opt : Opt)
    (trainL testL : List BatchAV) :
    ∀ (es : List Nat) (st : State),
      savedEpochs (runTraceAV ops opt trainL testL st es)
        = es.filter (fun e => e % opt.checkpoint_interval == 0) := by
  intro es
  induction es with
  | nil => intro st; simp [runTraceAV, savedEpochs, saveEvents]
  | cons e es ih =>
    intro st
    rw [runTraceAV, savedEpochs, saveEvents_append, List.map_append]
    rw [show (saveEvents (run_epoch ops opt trainL testL st e).2).map
          Prod.snd = savedEpochs (run_epoch ops opt trainL testL st e).2
        from rfl]
    rw [show (saveEvents (runTraceAV ops opt trainL testL
          (run_epoch ops opt trainL testL st e).1 es)).map Prod.snd
          = savedEpochs (runTraceAV ops opt trainL testL
              (run_epoch ops opt trainL testL st e).1 es) from rfl]
    rw [ih, savedEpochs, saveEvents_run_epoch, List.filter_cons]
    cases h : (e % opt.checkpoint_interval == 0) <;> simp [h]

theorem epochStarts_append (l1 l2 : List Ev) :
    epochStarts (l1 ++ l2) = epochStarts l1 ++ epochStarts l2 :=
  List.filterMap_append l1 l2 _

theorem epochStarts_nil : epochStarts [] = [] := rfl

theorem epochStarts_cons_epochStart (n : Nat) (l : List Ev) :
    epochStarts (Ev.epochStartEv n :: l) = n :: epochStarts l := by
  simp [epochStarts]

theorem epochStarts_cons_print (l : List Ev) :
    epochStarts (Ev.printEv :: l) = epochStarts l := by
  simp [epochStarts]

theorem epochStarts_train_audio (ops : Ops) (cuda : Bool) (st : State)
    (b : Batch) : epochStarts (train_audio ops cuda st b).2.2 = [] := by
  cases cuda <;> simp [epochStarts, train_audio]

theorem epochStarts_test_audio (ops : Ops) (cuda : Bool) (st : State)
    (b : Batch) : epochStarts (test_audio ops cuda st b).2.2 = [] := by
  cases cuda <;> simp [epochStarts, test_audio]

theorem epochStarts_trainTraceA (ops : Ops) (cuda : Bool) :
    ∀ (st : State) (bs : List Batch),
      epochStarts (trainTraceA ops cuda st bs) = [] := by
  intro st bs
  induction bs generalizing st with
  | nil => simp [trainTraceA, epochStarts]
  | cons b bs ih =>
    have h := epochStarts_train_audio ops cuda st b
    have h2 := ih (train_audio ops cuda st b).1
    simp [trainTraceA, epochStarts, List.filterMap_append] at h h2 ⊢
    exact ⟨h, h2⟩

theorem epochStarts_testTraceA (ops : Ops) (cuda : Bool) :
    ∀ (st : State) (bs : List Batch),
      epochStarts (testTraceA ops cuda st bs) = [] := by
  intro st bs
  induction bs generalizing st with
  | nil => simp [testTraceA, epochStarts]
  | cons b bs ih =>
    have h := epochStarts_test_audio ops cuda st b
    have h2 := ih (test_audio ops cuda st b).1
    simp [testTraceA, epochStarts, List.filterMap_append] at h h2 ⊢
    exact ⟨h, h2⟩

theorem epochStarts_logTrace (w : String) (e : Nat) (n : Nat) (stats : Stats) :
    epochStarts
        (stats.map (fun kv => Ev.addScalarEv w kv.1 (kv.2 / (n : Rat)) e))
      = [] := by
  simp only [epochStarts, List.filterMap_map]
  rw [List.filterMap_eq_nil_iff]
  intro a ha
  simp

/-- One `run_audio` epoch body enters the epoch loop exactly once, at its
own epoch number. -/
theorem epochStarts_run_audio_epoch (ops : Ops) (opt : Opt)
    (trainL testL : List Batch) (st : State) (e : Nat) :
    epochStarts (run_audio_epoch ops opt trainL testL st e).2 = [e] := by
  rw [run_audio_epoch]
  simp only [logStats_eq, epochTrainA_eq, epochTestA_eq]
  simp only [epochStarts_append, epochStarts_cons_epochStart,
    epochStarts_cons_print, epochStarts_nil, epochStarts_trainTraceA,
    epochStarts_testTraceA, epochStarts_logTrace, List.nil_append,
    List.append_nil]
  cases h : (e % opt.checkpoint_interval == 0) <;> simp [h, epochStarts]

/-- Across a sequence of `run_audio` epochs, the epoch numbers entered are
exactly the given ones, in order. -/
theorem epochStarts_runTraceA (ops : Ops) (opt : Opt)
    (trainL testL : List Batch) :
    ∀ (es : List Nat) (st : State),
      epochStarts (runTraceA ops opt trainL testL st es) = es := by
  intro es
  induction es with
  | nil => intro st; simp [runTraceA, epochStarts]
  | cons e es ih =>
    intro st
    rw [runTraceA, epochStarts_append, epochStarts_run_audio_epoch, ih]
    rfl

theorem trainBatches_append (l1 l2 : List Ev) :
    trainBatches (l1 ++ l2) = trainBatches l1 ++ trainBatches l2 :=
  List.filterMap_append l1 l2 _

theorem trainBatches_nil : trainBatches [] = [] := rfl

theorem trainBatches_cons_epochStart (n : Nat) (l : List Ev) :
    trainBatches (Ev.epochStartEv n :: l) = trainBatches l := by
  simp [trainBatches]

theorem trainBatches_cons_print (l : List Ev) :
    trainBatches (Ev.printEv :: l) = trainBatches l := by
  simp [trainBatches]

theorem trainBatches_train_audio (ops : Ops) (cuda : Bool) (st : State)
    (b : Batch) : trainBatches (train_audio ops cuda st b).2.2 = [] := by
  cases cuda <;> simp [trainBatches, train_audio]

theorem trainBatches_test_audio (ops : Ops) (cuda : Bool) (st : State)
    (b : Batch) : trainBatches (test_audio ops cuda st b).2.2 = [] := by
  cases cuda <;> simp [trainBatches, test_audio]

/-- The training loop of a `run_audio` epoch calls `train_audio` once per
batch of the training loader, in loader order. -/
theorem trainBatches_trainTraceA (ops : Ops) (cuda : Bool) :
    ∀ (st : State) (bs : List Batch),
      trainBatches (trainTraceA ops cuda st bs) = bs := by
  intro st bs
  induction bs generalizing st with
  | nil => simp [trainTraceA, trainBatches]
  | cons b bs ih =>
    have h := trainBatches_train_audio ops cuda st b
    have h2 := ih (train_audio ops cuda st b).1
    rw [trainTraceA, trainBatches_append]
    rw [show trainBatches (Ev.trainBatchEv b :: (train_audio ops cuda st b).2.2)
          = b :: trainBatches (train_audio ops cuda st b).2.2 by
        simp [trainBatches]]
    rw [h, h2]
    rfl

theorem trainBatches_testTraceA (ops : Ops) (cuda : Bool) :
    ∀ (st : State) (bs : List Batch),
      trainBatches (testTraceA ops cuda st bs) = [] := by
  intro st bs
  induction bs generalizing st with
  | nil => simp [testTraceA, trainBatches]
  | cons b bs ih =>
    have h := trainBatches_test_audio ops cuda st b
    have h2 := ih (test_audio ops cuda st b).1
    simp [testTraceA, trainBatches, List.filterMap_append] at h h2 ⊢
    exact ⟨h, h2⟩

theorem trainBatches_logTrace (w : String) (e : Nat) (n : Nat)
    (stats : Stats) :
    trainBatches
        (stats.map (fun kv => Ev.addScalarEv w kv.1 (kv.2 / (n : Rat)) e))
      = [] := by
  simp only [trainBatches, List.filterMap_map]
  rw [List.filterMap_eq_nil_iff]
  intro a ha
  simp

/-- One `run_audio` epoch body calls `train_audio` exactly on the batches of
the training loader, in order. -/
theorem trainBatches_run_audio_epoch (ops : Ops) (opt : Opt)
    (trainL testL : List Batch) (st : State) (e : Nat) :
    trainBatches (run_audio_epoch ops opt trainL testL st e).2 = trainL := by
  rw [run_audio_epoch]
  simp only [logStats_eq, epochTrainA_eq, epochTestA_eq]
  simp only [trainBatches_append, trainBatches_cons_epochStart,
    trainBatches_cons_print, trainBatches_nil, trainBatches_trainTraceA,
    trainBatches_testTraceA, trainBatches_logTrace, List.nil_append,
    List.append_nil]
  cases h : (e % opt.checkpoint_interval == 0) <;> simp [h, trainBatches]

theorem stepCount_append (l1 l2 : List Ev) :
    stepCount (l1 ++ l2) = stepCount l1 + stepCount l2 :=
  List.countP_append _ l1 l2

theorem stepCount_nil : stepCount [] = 0 := rfl

theorem stepCount_train_audio (ops : Ops) (cuda : Bool) (st : State)
    (b : Batch) : stepCount (train_audio ops cuda st b).2.2 = 1 := by
  cases cuda <;> simp [stepCount, train_audio]

theorem stepCount_test_audio (ops : Ops) (cuda : Bool) (st : State)
    (b : Batch) : stepCount (test_audio ops cuda st b).2.2 = 0 := by
  cases cuda <;> simp [stepCount, test_audio]

theorem stepCount_train (ops : Ops) (st : State) (b : BatchAV) :
    stepCount (train ops st b).2.2 = 1 := by
  simp [stepCount, train]

theorem stepCount_test (ops : Ops) (st : State) (b : BatchAV) :
    stepCount (test ops st b).2.2 = 0 := by
  simp [stepCount, test]

/-- The training loop of a `run_audio` epoch takes exactly one optimizer
step per batch. -/
theorem stepCount_trainTraceA (ops : Ops) (cuda : Bool) :
    ∀ (st : State) (bs : List Batch),
      stepCount (trainTraceA ops cuda st bs) = bs.length := by
  intro st bs
  induction bs generalizing st with
  | nil => simp [trainTraceA, stepCount]
  | cons b bs ih =>
    rw [trainTraceA, stepCount_append,
      show stepCount (Ev.trainBatchEv b :: (train_audio ops cuda st b).2.2)
          = stepCount (train_audio ops cuda st b).2.2 by simp [stepCount],
      stepCount_train_audio, ih]
    simp [Nat.add_comm]

theorem stepCount_testTraceA (ops : Ops) (cuda : Bool) :
    ∀ (st : State) (bs : List Batch),
      stepCount (testTraceA ops cuda st bs) = 0 := by
  intro st bs
  induction bs generalizing st with
  | nil => simp [testTraceA, stepCount]
  | cons b bs ih =>
    rw [testTraceA, stepCount_append,
      show stepCount (Ev.testBatchEv b :: (test_audio ops cuda st b).2.2)
          = stepCount (test_audio ops cuda st b).2.2 by simp [stepCount],
      stepCount_test_audio, ih]

theorem stepCount_trainTraceAV (ops : Ops) (cuda : Bool) :
    ∀ (st : State) (bs : List BatchAV),
      stepCount (trainTraceAV ops cuda st bs) = bs.length := by
  intro st bs
  induction bs generalizing st with
  | nil => simp [trainTraceAV, stepCount]
  | cons b bs ih =>
    rw [trainTraceAV, stepCount_append,
      show stepCount (Ev.trainBatchAVEv (to_variables cuda b)
            :: (train ops st (to_variables cuda b)).2.2)
          = stepCount (train ops st (to_variables cuda b)).2.2 by
        simp [stepCount],
      stepCount_train, ih]
    simp [Nat.add_comm]

theorem stepCount_testTraceAV (ops : Ops) (cuda : Bool) :
    ∀ (st : State) (bs : List BatchAV),
      stepCount (testTraceAV ops cuda st bs) = 0 := by
  intro st bs
  induction bs generalizing st with
  | nil => simp [testTraceAV, stepCount]
  | cons b bs ih =>
    rw [testTraceAV, stepCount_append,
      show stepCount (Ev.testBatchAVEv (to_variables cuda b)
            :: (test ops st (to_variables cuda b)).2.2)
          = stepCount (test ops st (to_variables cuda b)).2.2 by
        simp [stepCount],
      stepCount_test, ih]

theorem stepCount_logTrace (w : String) (e : Nat) (n : Nat) (stats : Stats) :
    stepCount
        (stats.map (fun kv => Ev.addScalarEv w kv.1 (kv.2 / (n : Rat)) e))
      = 0 := by
  simp only [stepCount, List.countP_map]
  rw [List.countP_eq_zero]
  intro a ha
  simp

/-- One `run_audio` epoch takes exactly `len(train_loader)` optimizer
steps: one per training batch and none anywhere else (in particular none in
the testing loop). -/
theorem stepCount_run_audio_epoch (ops : Ops) (opt : Opt)
    (trainL testL : List Batch) (st : State) (e : Nat) :
    stepCount (run_audio_epoch ops opt trainL testL st e).2
      = trainL.length := by
  rw [run_audio_epoch]
  simp only [logStats_eq, epochTrainA_eq, epochTestA_eq]
  rw [show (Ev.epochStartEv e :: trainTraceA ops opt.cuda st trainL)
        = [Ev.epochStartEv e] ++ trainTraceA ops opt.cuda st trainL from rfl]
  simp only [stepCount_append, stepCount_trainTraceA, stepCount_testTraceA,
    stepCount_logTrace]
  cases h : (e % opt.checkpoint_interval == 0) <;> simp [h, stepCount]

/-- One `run` epoch takes exactly `len(train_loader)` optimizer steps. -/
theorem stepCount_run_epoch (ops : Ops) (opt : Opt)
    (trainL testL : List BatchAV) (st : State) (e : Nat) :
    stepCount (run_epoch ops opt trainL testL st e).2 = trainL.length := by
  rw [run_epoch]
  simp only [logStats_eq, epochTrainAV_eq, epochTestAV_eq]
  rw [show (Ev.epochStartEv e :: trainTraceAV ops opt.cuda st trainL)
        = [Ev.epochStartEv e] ++ trainTraceAV ops opt.cuda st trainL from rfl]
  simp only [stepCount_append, stepCount_trainTraceAV, stepCount_testTraceAV,
    stepCount_logTrace]
  cases h : (e % opt.checkpoint_interval == 0) <;> simp [h, stepCount]

/-! Accumulation of per-batch stats dicts in closed form. -/

theorem update_stats_two (k1 k2 : String) (hk : k1 ≠ k2) (a c v w : Rat) :
    update_stats [(k1, a), (k2, c)] [(k1, v), (k2, w)]
      = [(k1, a + v), (k2, c + w)] := by
  have hk' : k2 ≠ k1 := Ne.symm hk
  simp [update_stats, hk, hk']

theorem update_stats_nil_two (k1 k2 : String) (hk : k1 ≠ k2) (v w : Rat) :
    update_stats [] [(k1, v), (k2, w)] = [(k1, v), (k2, w)] := by
  have hk' : k2 ≠ k1 := Ne.symm hk
  simp [update_stats, hk, hk']

theorem update_stats_one (k : String) (a v : Rat) :
    update_stats [(k, a)] [(k, v)] = [(k, a + v)] := by
  simp [update_stats]

theorem update_stats_nil_one (k : String) (v : Rat) :
    update_stats [] [(k, v)] = [(k, v)] := by
  simp [update_stats]

theorem statOf_two_fst (k1 k2 : String) (v w : Rat) :
    statOf [(k1, v), (k2, w)] k1 = v := by
  simp [statOf]

theorem statOf_two_snd (k1 k2 : String) (hk : k1 ≠ k2) (v w : Rat) :
    statOf [(k1, v), (k2, w)] k2 = w := by
  have hk' : k2 ≠ k1 := Ne.symm hk
  simp [statOf, hk, hk']

theorem sumStat_cons (k : String) (d : Stats) (ds : List Stats) :
    sumStat k (d :: ds) = statOf d k + sumStat k ds := by
  simp [sumStat]

/-- Folding `update_stats` over dicts that all carry the same two distinct
keys accumulates, per key, the sum of the per-dict values. -/
theorem foldl_update_stats_two (k1 k2 : String) (hk : k1 ≠ k2) :
    ∀ (ds : List Stats),
      (∀ d ∈ ds, ∃ v w, d = [(k1, v), (k2, w)]) →
      ∀ (a c : Rat),
        ds.foldl update_stats [(k1, a), (k2, c)]
          = [(k1, a + sumStat k1 ds), (k2, c + sumStat k2 ds)] := by
  intro ds
  induction ds with
  | nil => intro _ a c; simp [sumStat]
  | cons d rest ih =>
    intro hds a c
    obtain ⟨v, w, rfl⟩ := hds d (List.mem_cons_self d rest)
    rw [List.foldl_cons, update_stats_two k1 k2 hk,
      ih (fun x hx => hds x (List.mem_cons_of_mem _ hx)) (a + v) (c + w),
      sumStat_cons, sumStat_cons, statOf_two_fst, statOf_two_snd k1 k2 hk,
      add_assoc, add_assoc]

/-- Accumulating two-key dicts into the fresh `defaultdict(float)`: empty
when there is no batch, otherwise both keys hold the batch sums, in
insertion order. -/
theorem foldl_update_stats_two_nil (k1 k2 : String) (hk : k1 ≠ k2)
    (ds : List Stats) (hds : ∀ d ∈ ds, ∃ v w, d = [(k1, v), (k2, w)]) :
    ds.foldl update_stats []
      = if ds.isEmpty then []
        else [(k1, sumStat k1 ds), (k2, sumStat k2 ds)] := by
  cases ds with
  | nil => simp
  | cons d rest =>
    obtain ⟨v, w, rfl⟩ := hds d (List.mem_cons_self d rest)
    rw [List.foldl_cons, update_stats_nil_two k1 k2 hk,
      foldl_update_stats_two k1 k2 hk rest
        (fun x hx => hds x (List.mem_cons_of_mem _ hx)) v w,
      sumStat_cons, sumStat_cons, statOf_two_fst, statOf_two_snd k1 k2 hk]
    simp

theorem statOf_one (k : String) (v : Rat) : statOf [(k, v)] k = v := by
  simp [statOf]

/-- Folding `update_stats` over single-key dicts accumulates the sum. -/
theorem foldl_update_stats_one (k : String) :
    ∀ (ds : List Stats),
      (∀ d ∈ ds, ∃ v, d = [(k, v)]) →
      ∀ (a : Rat),
        ds.foldl update_stats [(k, a)] = [(k, a + sumStat k ds)] := by
  intro ds
  induction ds with
  | nil => intro _ a; simp [sumStat]
  | cons d rest ih =>
    intro hds a
    obtain ⟨v, rfl⟩ := hds d (List.mem_cons_self d rest)
    rw [List.foldl_cons, update_stats_one,
      ih (fun x hx => hds x (List.mem_cons_of_mem _ hx)) (a + v),
      sumStat_cons, statOf_one, add_assoc]

theorem foldl_update_stats_one_nil (k : String) (ds : List Stats)
    (hds : ∀ d ∈ ds, ∃ v, d = [(k, v)]) :
    ds.foldl update_stats []
      = if ds.isEmpty then [] else [(k, sumStat k ds)] := by
  cases ds with
  | nil => simp
  | cons d rest =>
    obtain ⟨v, rfl⟩ := hds d (List.mem_cons_self d rest)
    rw [List.foldl_cons, update_stats_nil_one,
      foldl_update_stats_one k rest
        (fun x hx => hds x (List.mem_cons_of_mem _ hx)) v,
      sumStat_cons, statOf_one]
    simp

/-- Every per-batch dict of the `run_audio` training loop has exactly the
keys `train loss` and `accuracy`, in that order. -/
theorem trainDictsA_shape (ops : Ops) (cuda : Bool) :
    ∀ (bs : List Batch) (st : State) (d : Stats),
      d ∈ trainDictsA ops cuda st bs →
      ∃ v w, d = [("train loss", v), ("accuracy", w)] := by
  intro bs
  induction bs with
  | nil => intro st d hd; simp [trainDictsA] at hd
  | cons b rest ih =>
    intro st d hd
    rw [trainDictsA] at hd
    rcases List.mem_cons.mp hd with h | h
    · subst h
      exact ⟨_, _, rfl⟩
    · exact ih _ d h

/-- Every per-batch dict of the `run_audio` testing loop has exactly the
keys `test loss` and `accuracy`, in that order. -/
theorem testDictsA_shape (ops : Ops) (cuda : Bool) :
    ∀ (bs : List Batch) (st : State) (d : Stats),
      d ∈ testDictsA ops cuda st bs →
      ∃ v w, d = [("test loss", v), ("accuracy", w)] := by
  intro bs
  induction bs with
  | nil => intro st d hd; simp [testDictsA] at hd
  | cons b rest ih =>
    intro st d hd
    rw [testDictsA] at hd
    rcases List.mem_cons.mp hd with h | h
    · subst h
      exact ⟨_, _, rfl⟩
    · exact ih _ d h

/-- Every per-batch dict of the `run` testing loop has exactly the key
`test loss`. -/
theorem testDictsAV_shape (ops : Ops) (cuda : Bool) :
    ∀ (bs : List BatchAV) (st : State) (d : Stats),
      d ∈ testDictsAV ops cuda st bs → ∃ v, d = [("test loss", v)] := by
  intro bs
  induction bs with
  | nil => intro st d hd; simp [testDictsAV] at hd
  | cons b rest ih =>
    intro st d hd
    rw [testDictsAV] at hd
    rcases List.mem_cons.mp hd with h | h
    · subst h
      exact ⟨_, rfl⟩
    · exact ih _ d h

theorem testDictsA_length (ops : Ops) (cuda : Bool) :
    ∀ (bs : List Batch) (st : State),
      (testDictsA ops cuda st bs).length = bs.length := by
  intro bs
  induction bs with
  | nil => intro st; simp [testDictsA]
  | cons b rest ih => intro st; rw [testDictsA]; simp [ih]

theorem testDictsAV_length (ops : Ops) (cuda : Bool) :
    ∀ (bs : List BatchAV) (st : State),
      (testDictsAV ops cuda st bs).length = bs.length := by
  intro bs
  induction bs with
  | nil => intro st; simp [testDictsAV]
  | cons b rest ih => intro st; rw [testDictsAV]; simp [ih]

/-- The train-stats dictionary accumulated by the training loop of a
`run_audio` epoch started in state `st`. -/
def trainStatsA (ops : Ops) (opt : Opt) (trainL : List Batch) (st : State) :
    Stats :=
  (epochTrainA ops opt.cuda st trainL).2.1

/-- The accumulated train stats of a `run_audio` epoch, in closed form:
each key holds the sum of that statistic over the per-batch dicts. -/
theorem trainStatsA_eq (ops : Ops) (opt : Opt) (trainL : List Batch)
    (st : State) :
    trainStatsA ops opt trainL st
      = if trainL.isEmpty then []
        else
          [("train loss", sumStat "train loss" (trainDictsA ops opt.cuda st trainL)),
           ("accuracy", sumStat "accuracy" (trainDictsA ops opt.cuda st trainL))] := by
  simp only [trainStatsA, epochTrainA_eq]
  rw [foldl_update_stats_two_nil "train loss" "accuracy" (by decide)
      (trainDictsA ops opt.cuda st trainL)
      (trainDictsA_shape ops opt.cuda trainL st)]
  cases trainL with
  | nil => simp [trainDictsA]
  | cons b rest =>
    have h : (trainDictsA ops opt.cuda st (b :: rest)).isEmpty = false := by
      rw [trainDictsA]; rfl
    rw [h]
    simp

/-- The accumulated test stats of a `run_audio` epoch, in closed form. -/
theorem testStatsA_eq (ops : Ops) (opt : Opt) (trainL testL : List Batch)
    (st : State) :
    testStatsA ops opt trainL testL st
      = if testL.isEmpty then []
        else
          [("test loss",
            sumStat "test loss"
              (testDictsA ops opt.cuda (trainStateA ops opt.cuda st trainL) testL)),
           ("accuracy",
            sumStat "accuracy"
              (testDictsA ops opt.cuda (trainStateA ops opt.cuda st trainL) testL))] := by
  simp only [testStatsA, epochTrainA_eq, epochTestA_eq]
  rw [foldl_update_stats_two_nil "test loss" "accuracy" (by decide)
      (testDictsA ops opt.cuda (trainStateA ops opt.cuda st trainL) testL)
      (testDictsA_shape ops opt.cuda testL (trainStateA ops opt.cuda st trainL))]
  cases testL with
  | nil => simp [testDictsA]
  | cons b rest =>
    have h : (testDictsA ops opt.cuda (trainStateA ops opt.cuda st trainL)
        (b :: rest)).isEmpty = false := by
      rw [testDictsA]; rfl
    rw [h]
    simp

/-- The accumulated test stats of a `run` epoch, in closed form. -/
theorem testStatsAV_eq (ops : Ops) (opt : Opt) (trainL testL : List BatchAV)
    (st : State) :
    testStatsAV ops opt trainL testL st
      = if testL.isEmpty then []
        else
          [("test loss",
            sumStat "test loss"
              (testDictsAV ops opt.cuda (trainStateAV ops opt.cuda st trainL) testL))] := by
  simp only [testStatsAV, epochTrainAV_eq, epochTestAV_eq]
  rw [foldl_update_stats_one_nil "test loss"
      (testDictsAV ops opt.cuda (trainStateAV ops opt.cuda st trainL) testL)
      (testDictsAV_shape ops opt.cuda testL (trainStateAV ops opt.cuda st trainL))]
  cases testL with
  | nil => simp [testDictsAV]
  | cons b rest =>
    have h : (testDictsAV ops opt.cuda (trainStateAV ops opt.cuda st trainL)
        (b :: rest)).isEmpty = false := by
      rw [testDictsAV]; rfl
    rw [h]
    simp

theorem addScalars_append (w : String) (l1 l2 : List Ev) :
    addScalars w (l1 ++ l2) = addScalars w l1 ++ addScalars w l2 :=
  List.filterMap_append l1 l2 _

theorem addScalars_nil (w : String) : addScalars w [] = [] := rfl

theorem addScalars_cons_epochStart (w : String) (n : Nat) (l : List Ev) :
    addScalars w (Ev.epochStartEv n :: l) = addScalars w l := by
  simp [addScalars]

theorem addScalars_cons_print (w : String) (l : List Ev) :
    addScalars w (Ev.printEv :: l) = addScalars w l := by
  simp [addScalars]

theorem addScalars_train_audio (w : String) (ops : Ops) (cuda : Bool)
    (st : State) (b : Batch) :
    addScalars w (train_audio ops cuda st b).2.2 = [] := by
  cases cuda <;> simp [addScalars, train_audio]

theorem addScalars_test_audio (w : String) (ops : Ops) (cuda : Bool)
    (st : State) (b : Batch) :
    addScalars w (test_audio ops cuda st b).2.2 = [] := by
  cases cuda <;> simp [addScalars, test_audio]

theorem addScalars_trainTraceA (w : String) (ops : Ops) (cuda : Bool) :
    ∀ (st : State) (bs : List Batch),
      addScalars w (trainTraceA ops cuda st bs) = [] := by
  intro st bs
  induction bs generalizing st with
  | nil => simp [trainTraceA, addScalars]
  | cons b bs ih =>
    have h := addScalars_train_audio w ops cuda st b
    have h2 := ih (train_audio ops cuda st b).1
    simp [trainTraceA, addScalars, List.filterMap_append] at h h2 ⊢
    exact ⟨h, h2⟩

theorem addScalars_testTraceA (w : String) (ops : Ops) (cuda : Bool) :
    ∀ (st : State) (bs : List Batch),
      addScalars w (testTraceA ops cuda st bs) = [] := by
  intro st bs
  induction bs generalizing st with
  | nil => simp [testTraceA, addScalars]
  | cons b bs ih =>
    have h := addScalars_test_audio w ops cuda st b
    have h2 := ih (test_audio ops cuda st b).1
    simp [testTraceA, addScalars, List.filterMap_append] at h h2 ⊢
    exact ⟨h, h2⟩

theorem addScalars_cons_addScalar (w w' k : String) (v : Rat) (ep : Nat)
    (l : List Ev) :
    addScalars w (Ev.addScalarEv w' k v ep :: l)
      = if w' == w then (k, v) :: addScalars w l else addScalars w l := by
  cases h : (w' == w) with
  | false =>
    have hne : w' ≠ w := ne_of_beq_false h
    simp [addScalars, List.filterMap_cons, hne]
  | true =>
    have heq : w' = w := eq_of_beq h
    subst heq
    simp [addScalars, List.filterMap_cons]

/-- The logging loop of writer `w'` contributes to `addScalars w` exactly
its per-key averaged values when `w' = w`, and nothing otherwise. -/
theorem addScalars_logTrace (w w' : String) (e : Nat) (n : Nat)
    (stats : Stats) :
    addScalars w
        (stats.map (fun kv => Ev.addScalarEv w' kv.1 (kv.2 / (n : Rat)) e))
      = if w' == w then stats.map (fun kv => (kv.1, kv.2 / (n : Rat)))
        else [] := by
  induction stats with
  | nil => cases h : (w' == w) <;> simp [addScalars, h]
  | cons kv rest ih =>
    rw [List.map_cons, addScalars_cons_addScalar, ih]
    cases h : (w' == w) <;> simp [h]

/-- The `train` writer of one `run_audio` epoch logs exactly the
accumulated train stats, each divided by `len(train_loader)`. -/
theorem addScalars_train_run_audio_epoch (ops : Ops) (opt : Opt)
    (trainL testL : List Batch) (st : State) (e : Nat) :
    addScalars "train" (run_audio_epoch ops opt trainL testL st e).2
      = (trainStatsA ops opt trainL st).map
          (fun kv => (kv.1, kv.2 / (trainL.length : Rat))) := by
  rw [run_audio_epoch]
  simp only [logStats_eq, epochTrainA_eq, epochTestA_eq]
  simp only [addScalars_append, addScalars_cons_epochStart,
    addScalars_cons_print, addScalars_nil, addScalars_trainTraceA,
    addScalars_testTraceA, addScalars_logTrace, List.nil_append,
    List.append_nil]
  have h1 : (("train" : String) == "train") = true := by decide
  have h2 : (("test" : String) == "train") = false := by decide
  rw [h1, h2]
  simp only [if_true, if_false, List.append_nil, List.nil_append]
  cases h : (e % opt.checkpoint_interval == 0) <;>
    simp [h, addScalars, trainStatsA, epochTrainA_eq]

/-- The `test` writer of one `run_audio` epoch logs exactly the accumulated
test stats, each divided by `len(test_loader)`. -/
theorem addScalars_test_run_audio_epoch (ops : Ops) (opt : Opt)
    (trainL testL : List Batch) (st : State) (e : Nat) :
    addScalars "test" (run_audio_epoch ops opt trainL testL st e).2
      = (testStatsA ops opt trainL testL st).map
          (fun kv => (kv.1, kv.2 / (testL.length : Rat))) := by
  rw [run_audio_epoch]
  simp only [logStats_eq, epochTrainA_eq, epochTestA_eq]
  simp only [addScalars_append, addScalars_cons_epochStart,
    addScalars_cons_print, addScalars_nil, addScalars_trainTraceA,
    addScalars_testTraceA, addScalars_logTrace, List.nil_append,
    List.append_nil]
  have h1 : (("test" : String) == "test") = true := by decide
  have h2 : (("train" : String) == "test") = false := by decide
  rw [h1, h2]
  simp only [if_true, if_false, List.append_nil, List.nil_append]
  cases h : (e % opt.checkpoint_interval == 0) <;>
    simp [h, addScalars, testStatsA, epochTrainA_eq, epochTestA_eq]

/-! Concrete instances for counterexamples and witnesses. -/

/-- A concrete instantiation of the abstract framework operations. -/
def opsEx : Ops :=
  { forward := fun _ v _ => v
    forwardAV := fun _ f a => f + a
    bce := fun o l => o - l
    ce := fun o l => o - l
    acc := fun _ _ => 1
    stepNet := fun p _ => p + 1
    stepOpt := fun v => v + 1 }

/-- Concrete options: start epoch 0, two epochs, checkpoint every epoch. -/
def optEx : Opt :=
  { epoch := 0, n_epochs := 2, checkpoint_interval := 1, cuda := true,
    benchmark := false }

/-- A concrete initial network/optimizer state. -/
def stEx : State := ⟨⟨0, false⟩, ⟨0⟩⟩

/-- A concrete audio batch. -/
def bEx : Batch := ⟨1, 0, 3⟩

/-- A concrete audio+video batch. -/
def bAVEx : BatchAV := ⟨1, 2, 0⟩

/-! Writes of the `benchmark` loops. -/

/-- Writing a list of values at consecutive indices of an array. -/
def writeSeq : List Rat → Nat → List Rat → List Rat
  | arr, _, [] => arr
  | arr, k, v :: vs => writeSeq (arr.set k v) (k + 1) vs

/-- The `benchmark` loop body over a batch list, in closed form: it writes
the per-batch outputs and labels at consecutive indices starting at the
current `idx`, advances `idx` by the number of batches, and logs exactly
the indices it wrote. -/
theorem bench_foldl (ops : Ops) (params : Nat) :
    ∀ (bs : List BatchAV) (out lab : List Rat) (k : Nat) (w : List Nat),
      bs.foldl (bench_step ops params) ⟨out, lab, k, w⟩
        = ⟨writeSeq out k
             (bs.map (fun b => ops.forwardAV params b.frame0 b.audio0)),
           writeSeq lab k (bs.map (fun b => b.labels)),
           k + bs.length,
           w ++ List.range' k bs.length⟩ := by
  intro bs
  induction bs with
  | nil => intro out lab k w; simp [writeSeq]
  | cons b rest ih =>
    intro out lab k w
    rw [List.foldl_cons]
    rw [show bench_step ops params ⟨out, lab, k, w⟩ b
          = ⟨out.set k (ops.forwardAV params b.frame0 b.audio0),
             lab.set k b.labels, k + 1, w ++ [k]⟩ from rfl]
    rw [ih]
    simp [writeSeq, List.range'_succ, List.append_assoc, Nat.add_comm,
      Nat.add_assoc, Nat.add_left_comm]

theorem set_append_cons (v s0 : Rat) :
    ∀ (pre suf : List Rat),
      (pre ++ s0 :: suf).set pre.length v = pre ++ v :: suf := by
  intro pre suf
  induction pre with
  | nil => rfl
  | cons p ps ih => simp [List.set, ih]

/-- Writing exactly as many values as the suffix holds, starting right
after the prefix, replaces the suffix. -/
theorem writeSeq_exact :
    ∀ (vs pre suf : List Rat), suf.length = vs.length →
      writeSeq (pre ++ suf) pre.length vs = pre ++ vs := by
  intro vs
  induction vs with
  | nil =>
    intro pre suf h
    have hsuf : suf = [] := List.length_eq_zero.mp (by simpa using h)
    subst hsuf
    simp [writeSeq]
  | cons v vs ih =>
    intro pre suf h
    cases suf with
    | nil => simp at h
    | cons s0 suf' =>
      rw [writeSeq, set_append_cons]
      have h' : suf'.length = vs.length := by
        simpa using h
      have := ih (pre ++ [v]) suf' h'
      simp only [List.append_assoc, List.singleton_append,
        List.length_append, List.length_cons, List.length_nil] at this
      simpa using this

/-! The claims. -/

/-- C1, counterexample: the claim says both `run_audio` and the audio+video
routine `run` are reachable from the entry point for some option settings;
in fact the `__main__` dispatch of `train.py` calls `benchmark(opt)` when
`opt.benchmark` is set and `run_audio(opt)` otherwise, so no setting of
`opt.benchmark` — the only option the dispatch reads — reaches `run`. -/
theorem c1_run_unreachable :
    mainDispatch true ≠ Routine.runR ∧ mainDispatch false ≠ Routine.runR := by
  constructor <;> simp [mainDispatch]

/-- C1, amended: from the program entry point, the audio training routine
`run_audio` is reachable (with `opt.benchmark` false) and the benchmark
routine is reachable (with `opt.benchmark` true); every option setting
dispatches to one of these two, so the audio+video training routine `run`
is never invoked from the entry point. -/
theorem c1_entry_dispatch :
    mainDispatch false = Routine.runAudioR
      ∧ mainDispatch true = Routine.benchmarkR
      ∧ ∀ b : Bool, mainDispatch b = Routine.runAudioR
          ∨ mainDispatch b = Routine.benchmarkR := by
  refine ⟨rfl, rfl, ?_⟩
  intro b
  cases b
  · left; rfl
  · right; rfl

/-- C2: in both training routines, a `save_if_best` call is attempted at
the end of an epoch if and only if `epoch % opt.checkpoint_interval == 0`:
over a whole run the epochs attempting a save are exactly the multiples of
the interval among `range(opt.epoch, opt.n_epochs)`, and a single epoch
body attempts exactly one save when `epoch % opt.checkpoint_interval == 0`
and none otherwise. -/
theorem c2_checkpoint_interval (ops : Ops) (opt : Opt)
    (trainL testL : List Batch) (trainLV testLV : List BatchAV)
    (st0 stv : State) :
    (savedEpochs (run_audio ops opt trainL testL st0).2
        = (List.range' opt.epoch (opt.n_epochs - opt.epoch)).filter
            (fun e => e % opt.checkpoint_interval == 0))
      ∧ (∀ (st : State) (e : Nat),
          savedEpochs (run_audio_epoch ops opt trainL testL st e).2
            = if e % opt.checkpoint_interval == 0 then [e] else [])
      ∧ (savedEpochs (run ops opt trainLV testLV stv).2
          = (List.range' opt.epoch (opt.n_epochs - opt.epoch)).filter
              (fun e => e % opt.checkpoint_interval == 0))
      ∧ (∀ (st : State) (e : Nat),
          savedEpochs (run_epoch ops opt trainLV testLV st e).2
            = if e % opt.checkpoint_interval == 0 then [e] else []) := by
  refine ⟨?_, ?_, ?_, ?_⟩
  · rw [run_audio_eq]
    exact savedEpochs_runTraceA ops opt trainL testL _ st0
  · intro st e
    rw [savedEpochs, saveEvents_run_audio_epoch]
    cases h : (e % opt.checkpoint_interval == 0) <;> simp [h]
  · rw [run_eq]
    exact savedEpochs_runTraceAV ops opt trainLV testLV _ stv
  · intro st e
    rw [savedEpochs, saveEvents_run_epoch]
    cases h : (e % opt.checkpoint_interval == 0) <;> simp [h]

/-- C3: `run_audio` iterates epochs over `range(opt.epoch, opt.n_epochs)`
— so exactly `opt.n_epochs - opt.epoch` epochs run (truncated subtraction,
i.e. `max(0, n_epochs - epoch)`), in increasing order — and each epoch body
invokes the per-batch training step `train_audio` once for every batch of
the training loader, in loader order. -/
theorem c3_epoch_iteration (ops : Ops) (opt : Opt) (trainL testL : List Batch)
    (st0 : State) :
    (epochStarts (run_audio ops opt trainL testL st0).2
        = List.range' opt.epoch (opt.n_epochs - opt.epoch))
      ∧ ((epochStarts (run_audio ops opt trainL testL st0).2).length
          = opt.n_epochs - opt.epoch)
      ∧ (∀ (st : State) (e : Nat),
          trainBatches (run_audio_epoch ops opt trainL testL st e).2
            = trainL) := by
  refine ⟨?_, ?_, ?_⟩
  · rw [run_audio_eq]
    exact epochStarts_runTraceA ops opt trainL testL _ st0
  · rw [run_audio_eq]
    rw [epochStarts_runTraceA ops opt trainL testL _ st0]
    exact List.length_range' _ _ _
  · intro st e
    exact trainBatches_run_audio_epoch ops opt trainL testL st e

/-- C5: in both variants, every training batch performs, in this order:
set train mode, zero the gradients, forward pass, loss, backward, one
optimizer step (the only other events of a training batch are the device
moves between `zero_grad` and the forward pass, and the loop marker); and
exactly one optimizer step is taken per training batch — an epoch takes
exactly `len(train_loader)` steps in total. -/
theorem c5_train_step_order (ops : Ops) (cuda : Bool) (st stv : State)
    (b : Batch) (bv : BatchAV) (opt : Opt) (trainL testL : List Batch)
    (trainLV testLV : List BatchAV) (st1 st2 : State) (e : Nat) :
    (coreCalls (train_audio ops cuda st b).2.2
        = [Ev.netTrainEv, Ev.zeroGradEv,
           Ev.forwardEv (b.volumes * 100) b.lengths, Ev.lossEv, Ev.backwardEv,
           Ev.stepEv])
      ∧ (coreCalls (train ops stv bv).2.2
          = [Ev.netTrainEv, Ev.zeroGradEv, Ev.forwardAVEv bv.frame0 bv.audio0,
             Ev.lossEv, Ev.backwardEv, Ev.stepEv])
      ∧ stepCount (train_audio ops cuda st b).2.2 = 1
      ∧ stepCount (train ops stv bv).2.2 = 1
      ∧ stepCount (run_audio_epoch ops opt trainL testL st1 e).2
          = trainL.length
      ∧ stepCount (run_epoch ops opt trainLV testLV st2 e).2
          = trainLV.length := by
  refine ⟨?_, ?_, stepCount_train_audio ops cuda st b,
    stepCount_train ops stv bv,
    stepCount_run_audio_epoch ops opt trainL testL st1 e,
    stepCount_run_epoch ops opt trainLV testLV st2 e⟩
  · cases cuda <;> simp [coreCalls, train_audio]
  · simp [coreCalls, train]

/-- C7: evaluation does not train: a `test_audio` call (run under
`torch.no_grad()` with the network in eval mode) leaves the network
parameters and the optimizer state unchanged, and so does the whole testing
loop of an epoch; in our model the parameters and optimizer state change
only through the training step. -/
theorem c7_eval_frame (ops : Ops) (cuda : Bool) (st st2 : State) (b : Batch)
    (bs : List Batch) :
    ((test_audio ops cuda st b).1.net.params = st.net.params)
      ∧ ((test_audio ops cuda st b).1.optim = st.optim)
      ∧ ((test_audio ops cuda st b).1.net.trainMode = false)
      ∧ ((epochTestA ops cuda st2 bs).1.net.params = st2.net.params)
      ∧ ((epochTestA ops cuda st2 bs).1.optim = st2.optim) := by
  have hstate : ∀ (s : State) (l : List Batch),
      (testStateA ops cuda s l).net.params = s.net.params
        ∧ (testStateA ops cuda s l).optim = s.optim := by
    intro s l
    induction l generalizing s with
    | nil => exact ⟨rfl, rfl⟩
    | cons x xs ih =>
      rw [testStateA]
      refine ⟨?_, ?_⟩
      · rw [(ih (test_audio ops cuda s x).1).1]
        simp [test_audio]
      · rw [(ih (test_audio ops cuda s x).1).2]
        simp [test_audio]
  refine ⟨by simp [test_audio], by simp [test_audio], by simp [test_audio],
    ?_, ?_⟩
  · rw [epochTestA_eq]
    exact (hstate st2 bs).1
  · rw [epochTestA_eq]
    exact (hstate st2 bs).2

/-- C9: in the audio variant the training forward pass is called on the
volumes scaled by 100 (`net(volumes*100, lengths)`, train.py line 74) while
the testing forward pass is called on the unscaled volumes
(`net(volumes, lengths)`, line 89): on the same batch the two forward
inputs differ exactly by a factor of 100. -/
theorem c9_train_test_scaling (ops : Ops) (cuda cuda2 : Bool) (st st2 : State)
    (b : Batch) :
    (forwardInputs (train_audio ops cuda st b).2.2 = [b.volumes * 100])
      ∧ (forwardInputs (test_audio ops cuda2 st2 b).2.2 = [b.volumes])
      ∧ b.volumes * 100 = 100 * b.volumes := by
  refine ⟨?_, ?_, mul_comm _ _⟩
  · cases cuda <;> simp [forwardInputs, train_audio]
  · cases cuda2 <;> simp [forwardInputs, test_audio]

/-- C4: per epoch, the value logged (and printed — both use the same `avg`)
for every statistic key equals the sum of that statistic over all batches
of the epoch divided by the number of batches in the corresponding loader:
the `train` writer logs each accumulated train stat divided by
`len(train_loader)` and the `test` writer each accumulated test stat
divided by `len(test_loader)`, where the accumulated value of each key is
exactly the sum of that key over the per-batch stats dicts
(`update_stats` is modelled from the spec as `stats[k] += v` on a
`defaultdict(float)`). -/
theorem c4_stats_averaged (ops : Ops) (opt : Opt) (trainL testL : List Batch)
    (st : State) (e : Nat) :
    (addScalars "train" (run_audio_epoch ops opt trainL testL st e).2
        = (trainStatsA ops opt trainL st).map
            (fun kv => (kv.1, kv.2 / (trainL.length : Rat))))
      ∧ (trainStatsA ops opt trainL st
          = if trainL.isEmpty then []
            else
              [("train loss",
                sumStat "train loss" (trainDictsA ops opt.cuda st trainL)),
               ("accuracy",
                sumStat "accuracy" (trainDictsA ops opt.cuda st trainL))])
      ∧ (addScalars "test" (run_audio_epoch ops opt trainL testL st e).2
          = (testStatsA ops opt trainL testL st).map
              (fun kv => (kv.1, kv.2 / (testL.length : Rat))))
      ∧ (testStatsA ops opt trainL testL st
          = if testL.isEmpty then []
            else
              [("test loss",
                sumStat "test loss"
                  (testDictsA ops opt.cuda (trainStateA ops opt.cuda st trainL)
                    testL)),
               ("accuracy",
                sumStat "accuracy"
                  (testDictsA ops opt.cuda (trainStateA ops opt.cuda st trainL)
                    testL))]) :=
  ⟨addScalars_train_run_audio_epoch ops opt trainL testL st e,
   trainStatsA_eq ops opt trainL st,
   addScalars_test_run_audio_epoch ops opt trainL testL st e,
   testStatsA_eq ops opt trainL testL st⟩

/-- C8: the score passed to `save_if_best` at a checkpoint epoch is the
final value of the `avg` variable of the test logging loop, i.e. the
per-batch average (accumulated sum divided by `len(test_loader)`) of the
last-iterated entry of that epoch's test-stats dictionary — `accuracy` in
the audio variant, `test loss` in the audio+video variant, whenever the
test loader is non-empty — and when the test loader yields no batches the
dictionary is empty and the score is `0`, the initialisation of `avg`, not
any training metric. -/
theorem c8_save_score (ops : Ops) (opt : Opt) (trainL testL : List Batch)
    (trainLV testLV : List BatchAV) (st stv : State) (e : Nat) :
    (saveEvents (run_audio_epoch ops opt trainL testL st e).2
        = if e % opt.checkpoint_interval == 0 then
            [(lastStatAvg (testStatsA ops opt trainL testL st) testL.length,
              e)]
          else [])
      ∧ ((testStatsA ops opt trainL testL st).getLast?.map Prod.fst
          = if testL.isEmpty then none else some "accuracy")
      ∧ (testL.isEmpty = true → testStatsA ops opt trainL testL st = [])
      ∧ lastStatAvg ([] : Stats) testL.length = 0
      ∧ (saveEvents (run_epoch ops opt trainLV testLV stv e).2
          = if e % opt.checkpoint_interval == 0 then
              [(lastStatAvg (testStatsAV ops opt trainLV testLV stv)
                  testLV.length, e)]
            else [])
      ∧ ((testStatsAV ops opt trainLV testLV stv).getLast?.map Prod.fst
          = if testLV.isEmpty then none else some "test loss") := by
  refine ⟨saveEvents_run_audio_epoch ops opt trainL testL st e, ?_, ?_,
    rfl, saveEvents_run_epoch ops opt trainLV testLV stv e, ?_⟩
  · rw [testStatsA_eq]
    cases testL <;> simp
  · intro h
    rw [testStatsA_eq, h]
    rfl
  · rw [testStatsAV_eq]
    cases testLV <;> simp

/-- C8, witness: at a concrete instantiation with an empty test loader the
epoch's test-stats dictionary is empty (the hypothesis
`testL.isEmpty = true` is discharged at `testL = []`), and the checkpoint
save of epoch 0 carries score `lastStatAvg [] 0 = 0`. -/
theorem c8_save_score_witness :
    testStatsA opsEx optEx [bEx] [] stEx = []
      ∧ saveEvents (run_audio_epoch opsEx optEx [bEx] [] stEx 0).2
          = [(lastStatAvg (testStatsA opsEx optEx [bEx] [] stEx) 0, 0)] := by
  have h := c8_save_score opsEx optEx [bEx] [] [] [bAVEx] stEx stEx 0
  refine ⟨h.2.2.1 rfl, ?_⟩
  have h1 := h.1
  simpa [optEx] using h1

/-- C6, counterexample: the claim says the input tensors are moved to the
CUDA device before the forward pass for every training and testing batch,
but the moves are guarded by `if opt.cuda` (train.py lines 70-72 and
85-87): with `opt.cuda` false, a concrete training batch performs no CUDA
move at all while the forward pass still runs (here at trace index 2). -/
theorem c6_counterexample :
    firstIdx (isCudaMove "volumes") (train_audio opsEx false stEx bEx).2.2
        = none
      ∧ firstIdx (isCudaMove "labels") (train_audio opsEx false stEx bEx).2.2
          = none
      ∧ firstIdx isForwardCall (train_audio opsEx false stEx bEx).2.2
          = some 2 := by
  refine ⟨?_, ?_, ?_⟩ <;>
    simp [train_audio, opsEx, stEx, bEx, firstIdx, isCudaMove, isForwardCall]

/-- C6, amended: when `opt.cuda` is true, the input tensors `volumes` and
`labels` are moved to the CUDA device before the forward pass is called,
for every training batch (moves at trace indices 2 and 3, forward at 4) and
every testing batch (moves at 1 and 2, forward at 3); when `opt.cuda` is
false, no input move occurs. -/
theorem c6_cuda_moves (ops : Ops) (st st2 : State) (b : Batch) :
    (firstIdx (isCudaMove "volumes") (train_audio ops true st b).2.2 = some 2)
      ∧ (firstIdx (isCudaMove "labels") (train_audio ops true st b).2.2
          = some 3)
      ∧ (firstIdx isForwardCall (train_audio ops true st b).2.2 = some 4)
      ∧ (firstIdx (isCudaMove "volumes") (test_audio ops true st2 b).2.2
          = some 1)
      ∧ (firstIdx (isCudaMove "labels") (test_audio ops true st2 b).2.2
          = some 2)
      ∧ (firstIdx isForwardCall (test_audio ops true st2 b).2.2 = some 3)
      ∧ (firstIdx (isCudaMove "volumes") (train_audio ops false st b).2.2
          = none)
      ∧ (firstIdx (isCudaMove "labels") (train_audio ops false st b).2.2
          = none)
      ∧ (firstIdx (isCudaMove "volumes") (test_audio ops false st2 b).2.2
          = none)
      ∧ (firstIdx (isCudaMove "labels") (test_audio ops false st2 b).2.2
          = none) := by
  refine ⟨?_, ?_, ?_, ?_, ?_, ?_, ?_, ?_, ?_, ?_⟩ <;>
    simp [train_audio, test_audio, firstIdx, isCudaMove, isForwardCall]

/-- C10: after `benchmark` processes the training loader and then the test
loader, the running index equals `len(train_loader) + len(test_loader)`;
the `output` and `label_glob` arrays (each allocated with that same length,
`len(test_loader) + len(train_loader)`) have each cell written exactly once
— the write log is precisely the index list `0, …, n-1` — holding the
per-batch network outputs and labels in order; and the returned `final_tag`
is the elementwise `np.round` of the collected outputs, of that same
length. -/
theorem c10_benchmark_writes (ops : Ops) (opt : Opt)
    (trainL testL : List BatchAV) (params : Nat) :
    ((benchmark ops opt trainL testL params).2.idx
        = trainL.length + testL.length)
      ∧ ((benchmark ops opt trainL testL params).2.writes
          = List.range (trainL.length + testL.length))
      ∧ ((benchmark ops opt trainL testL params).2.output
          = (trainL ++ testL).map
              (fun b => ops.forwardAV params b.frame0 b.audio0))
      ∧ ((benchmark ops opt trainL testL params).2.label_glob
          = (trainL ++ testL).map (fun b => b.labels))
      ∧ ((benchmark ops opt trainL testL params).1
          = (trainL ++ testL).map
              (fun b => npRound (ops.forwardAV params b.frame0 b.audio0)))
      ∧ ((benchmark ops opt trainL testL params).1.length
          = trainL.length + testL.length) := by
  have h1 :
      writeSeq (List.replicate (testL.length + trainL.length) 0) 0
          ((trainL ++ testL).map
            (fun b => ops.forwardAV params b.frame0 b.audio0))
        = (trainL ++ testL).map
            (fun b => ops.forwardAV params b.frame0 b.audio0) := by
    have := writeSeq_exact
      ((trainL ++ testL).map (fun b => ops.forwardAV params b.frame0 b.audio0))
      [] (List.replicate (testL.length + trainL.length) 0)
      (by simp [Nat.add_comm])
    simpa using this
  have h2 :
      writeSeq (List.replicate (testL.length + trainL.length) 0) 0
          ((trainL ++ testL).map (fun b => b.labels))
        = (trainL ++ testL).map (fun b => b.labels) := by
    have := writeSeq_exact ((trainL ++ testL).map (fun b => b.labels))
      [] (List.replicate (testL.length + trainL.length) 0)
      (by simp [Nat.add_comm])
    simpa using this
  have hb : benchmark ops opt trainL testL params
      = (((trainL ++ testL).map
            (fun b => ops.forwardAV params b.frame0 b.audio0)).map npRound,
         ⟨(trainL ++ testL).map
            (fun b => ops.forwardAV params b.frame0 b.audio0),
          (trainL ++ testL).map (fun b => b.labels),
          trainL.length + testL.length,
          List.range (trainL.length + testL.length)⟩) := by
    simp only [benchmark, to_variables]
    rw [← List.foldl_append, bench_foldl, h1, h2]
    simp [List.range_eq_range']
  rw [hb]
  refine ⟨rfl, rfl, rfl, rfl, by simp [List.map_map, Function.comp_def],
    by simp⟩

end HighlightSoccerNet
